import Mathlib

/-!
Verification development for the thread-uploader repository.

The TypeScript sources are shallowly embedded in Lean:
* JavaScript string operations are modelled over `List Char` with
  structural (fuel-based where needed) recursion so that every
  definition evaluates inside the kernel.
* `Date` values are modelled by the inductive `JSDate`: the
  `new Date(y, m, d, h, mi)` constructor (local wall-clock fields)
  becomes `JSDate.mkLocal`, and generic `new Date(string)` parsing is
  an abstract parameter `dp : String → Option Int` returning the epoch
  timestamp of a successful parse (`none` = invalid date).
* The external `gray-matter` library is an abstract parameter
  `mf : String → Option MatterResult`; `none` models a thrown
  exception, `some` a successful parse.
* Database rows and HTTP calls are modelled as pure state (lists of
  records) and event traces.
-/

namespace ThreadsUploader

set_option maxRecDepth 8000

/-! ## JavaScript string primitives over `List Char` -/

/-- JavaScript whitespace characters relevant to `String.prototype.trim`
and the regex class `\s` (ASCII part; exotic unicode spaces are not
produced by any embedded input). -/
def isJsWs (c : Char) : Bool :=
  c == ' ' || c == '\t' || c == '\n' || c == '\r' || c == '\x0B' || c == '\x0C'

/-- Drop leading JS whitespace. -/
def trimLeftC (l : List Char) : List Char := l.dropWhile isJsWs

/-- Drop trailing JS whitespace. -/
def trimRightC (l : List Char) : List Char := (l.reverse.dropWhile isJsWs).reverse

/-- Trim (`trim`) on character lists: both ends. -/
def trimC (l : List Char) : List Char := trimRightC (trimLeftC l)

/-- JavaScript `s.trim()`. -/
def jsTrim (s : String) : String := ⟨trimC s.data⟩

/-- JavaScript `s.indexOf(pat)` (first index of a substring). -/
def idxOfSub (pat : List Char) : List Char → Option Nat
  | [] => if pat.isPrefixOf ([] : List Char) then some 0 else none
  | c :: cs =>
    if pat.isPrefixOf (c :: cs) then some 0
    else (idxOfSub pat cs).map (· + 1)

/-- JavaScript `s.includes(pat)`. -/
def containsSub (s pat : String) : Bool := (idxOfSub pat.data s.data).isSome

/-- JavaScript `s.startsWith(pre)`. -/
def jsStartsWith (s p : String) : Bool := p.data.isPrefixOf s.data

/-- JavaScript `s.endsWith(suf)`. -/
def jsEndsWith (s suf : String) : Bool := suf.data.isSuffixOf s.data

/-- JavaScript `s.substring(n)` (drop the first `n` characters). -/
def strDrop (s : String) (n : Nat) : String := ⟨s.data.drop n⟩

/-- Split on every non-overlapping occurrence of `sep` (left to right),
as JavaScript `s.split(sep)` for a non-empty separator.  The fuel is
always instantiated with `length + 1`, which suffices because every
step consumes at least one character. -/
def splitSubFuel (sep : List Char) : Nat → List Char → List (List Char)
  | 0, l => [l]
  | fuel + 1, l =>
    match idxOfSub sep l with
    | none => [l]
    | some i => l.take i :: splitSubFuel sep fuel (l.drop (i + sep.length))

/-- JavaScript `s.split(sep)` for a plain (non-empty) string separator. -/
def jsSplit (s sep : String) : List String :=
  (splitSubFuel sep.data (s.data.length + 1) s.data).map String.mk

/-- JavaScript `s.replace(pat, repl)` for a plain string pattern
(replaces the first occurrence only). -/
def jsReplaceFirst (s pat repl : String) : String :=
  match idxOfSub pat.data s.data with
  | none => s
  | some i => ⟨s.data.take i ++ repl.data ++ s.data.drop (i + pat.data.length)⟩

/-- Global replacement, as the JavaScript regex `replace(/pat/g, repl)`
for a literal pattern: scanning resumes after the replacement. -/
def replaceAllFuel (pat repl : List Char) : Nat → List Char → List Char
  | 0, l => l
  | fuel + 1, l =>
    match idxOfSub pat l with
    | none => l
    | some i => l.take i ++ repl ++ replaceAllFuel pat repl fuel (l.drop (i + pat.length))

/-- JavaScript `s.replace(/pat/g, repl)` for a literal pattern. -/
def jsReplaceAll (s pat repl : String) : String :=
  ⟨replaceAllFuel pat.data repl.data (s.data.length + 1) s.data⟩

/-- Decimal rendering of a natural number, as JavaScript's number to
string conversion inside a template literal. -/
def natDigits : Nat → Nat → List Char
  | 0, _ => []
  | fuel + 1, n =>
    if n < 10 then [Char.ofNat (48 + n)]
    else natDigits fuel (n / 10) ++ [Char.ofNat (48 + n % 10)]

/-- JavaScript number-to-string for a natural number. -/
def natToStr (n : Nat) : String := ⟨natDigits (n + 1) n⟩

/-! ## `src/lib/parser.ts` — data model -/

/-- Model of a JavaScript `Date` value as produced by `parser.ts`.
`mkLocal` records the arguments of `new Date(year, monthIndex, day,
hour, minute)`, whose fields are interpreted in the local (not UTC)
timezone; `fromTimestamp` is a date obtained from generic string
parsing (`new Date(string)`), carrying its epoch timestamp. -/
inductive JSDate where
  | mkLocal (year monthIndex day hour minute : Int)
  | fromTimestamp (ms : Int)
  deriving DecidableEq, Repr

/-- Record `ParsedPost` of `src/lib/parser.ts`. -/
structure ParsedPost where
  content : String
  images : List String
  scheduledAt : Option JSDate
  deriving DecidableEq, Repr

/-- Numeric value of a decimal digit character. -/
def digitVal (c : Char) : Int := (c.toNat : Int) - 48

/-- Two-digit decimal value. -/
def twoDigits (a b : Char) : Int := digitVal a * 10 + digitVal b

/-- The regex `^(\d{4})-(\d{2})-(\d{2})\s+(\d{2}):(\d{2})$` of
`parseScheduleDate`, returning the five captured numeric fields. -/
def matchYMDHM (s : String) : Option (Int × Int × Int × Int × Int) :=
  match s.data with
  | y1 :: y2 :: y3 :: y4 :: c1 :: m1 :: m2 :: c2 :: d1 :: d2 :: rest =>
    if y1.isDigit && y2.isDigit && y3.isDigit && y4.isDigit && c1 == '-' &&
       m1.isDigit && m2.isDigit && c2 == '-' && d1.isDigit && d2.isDigit then
      match rest with
      | w :: rest2 =>
        if isJsWs w then
          match rest2.dropWhile isJsWs with
          | [h1, h2, cc, mi1, mi2] =>
            if h1.isDigit && h2.isDigit && cc == ':' && mi1.isDigit && mi2.isDigit then
              some (twoDigits y1 y2 * 100 + twoDigits y3 y4, twoDigits m1 m2,
                    twoDigits d1 d2, twoDigits h1 h2, twoDigits mi1 mi2)
            else none
          | _ => none
        else none
      | [] => none
    else none
  | _ => none

/-- Function `parseScheduleDate` of `src/lib/parser.ts`.  `dp` abstracts the
generic `new Date(string)` parser (`none` models an invalid date, i.e.
`isNaN(date.getTime())`).  The function is total: it never raises. -/
def parseScheduleDate (dp : String → Option Int) (dateStr : String) : Option JSDate :=
  if dateStr = "" then none
  else
    match matchYMDHM dateStr with
    | some (y, mo, d, h, mi) => some (JSDate.mkLocal y (mo - 1) d h mi)
    | none => (dp dateStr).map JSDate.fromTimestamp

/-! ## `src/lib/parser.ts` — frontmatter parsing -/

/-- Loop state of `parseFrontmatter`'s line scan. -/
structure FMState where
  scheduledAt : Option String
  images : List String
  inImages : Bool

/-- One iteration of the `for (const line of lines)` loop of
`parseFrontmatter`. -/
def fmStep (st : FMState) (line : String) : FMState :=
  let t := jsTrim line
  if jsStartsWith t "scheduledAt:" then
    { st with scheduledAt := some (jsTrim (jsReplaceFirst t "scheduledAt:" "")),
              inImages := false }
  else if jsStartsWith t "images:" then
    { st with inImages := true }
  else if st.inImages && jsStartsWith t "-" then
    let imageUrl := jsTrim (jsReplaceFirst t "-" "")
    if imageUrl ≠ "" then { st with images := st.images ++ [imageUrl] } else st
  else if containsSub t ":" && !jsStartsWith t "-" then
    { st with inImages := false }
  else st

/-- The regex replacement `cleanContent.replace(/\n---\s*$/, '')`:
cut at the first position where a `"\n---"` followed only by
whitespace reaches the end of the string. -/
def stripTrailSepC : List Char → List Char
  | [] => []
  | c :: cs =>
    if ['\n', '-', '-', '-'].isPrefixOf (c :: cs) && ((c :: cs).drop 4).all isJsWs then []
    else c :: stripTrailSepC cs

/-- String version of `stripTrailSepC`. -/
def stripTrailSep (s : String) : String := ⟨stripTrailSepC s.data⟩

/-- The regex replacement `cleanContent.replace(/^###[^\n]*\n/, '')`:
drop a leading header line when the string starts with `###` and
contains a newline. -/
def stripLeadHeader (s : String) : String :=
  if jsStartsWith s "###" then
    match idxOfSub ['\n'] s.data with
    | some j => ⟨s.data.drop (j + 1)⟩
    | none => s
  else s

/-- Function `parseFrontmatter` of `src/lib/parser.ts`. -/
def parseFrontmatter (dp : String → Option Int) (frontmatterStr postContent : String) :
    Option ParsedPost :=
  let lines := jsSplit frontmatterStr "\n"
  let st := lines.foldl fmStep ⟨none, [], false⟩
  let c1 := jsTrim (stripTrailSep postContent)
  let c2 := jsTrim (stripLeadHeader c1)
  if c2 = "" then none
  else
    some { content := c2
           images := st.images
           scheduledAt :=
             match st.scheduledAt with
             | some sd => if sd = "" then none else parseScheduleDate dp sd
             | none => none }

/-! ## `src/lib/parser.ts` — markdown ingestion -/

/-- The regex match of `body` against pattern `^---\n([\s\S]*?)\n---`
(anchored at the start, non-greedy group): if `body` starts with
`"---\n"`, the group captures up to the first following `"\n---"`.
Returns (captured group, whole match). -/
def sepMatch (body : String) : Option (String × String) :=
  if jsStartsWith body "---\n" then
    let t := body.data.drop 4
    match idxOfSub ['\n', '-', '-', '-'] t with
    | some j => some (⟨t.take j⟩, ⟨'-' :: '-' :: '-' :: '\n' :: (t.take j ++ ['\n', '-', '-', '-'])⟩)
    | none => none
  else none

/-- The regex replacement of pattern `---$` by the empty string in
`body`: remove a trailing `"---"`. -/
def jsStripDashEnd (s : String) : String :=
  if jsEndsWith s "---" then ⟨s.data.take (s.data.length - 3)⟩ else s

/-- Body of the `for (const chunk of chunks)` loop of
`parseMarkdownFile`; `continue` and a discarded segment become `none`.
The header line before the first newline is bound to `_header` in the
source and unused. -/
def chunkPost (dp : String → Option Int) (chunk : String) : Option ParsedPost :=
  if jsTrim chunk = "" then none
  else if jsStartsWith (jsTrim chunk) "# " then none
  else
    match idxOfSub ['\n'] chunk.data with
    | none => none
    | some firstLineEnd =>
      let body := jsTrim (strDrop chunk firstLineEnd)
      if body = "" then none
      else
        match sepMatch body with
        | some (inner, whole) =>
          let part1 := jsTrim inner
          let rest := jsTrim (jsReplaceFirst body whole "")
          if containsSub part1 "scheduledAt:" || containsSub part1 "images:" then
            parseFrontmatter dp part1 (if rest = "" then " " else rest)
          else some { content := part1, images := [], scheduledAt := none }
        | none =>
          let cleanContent := jsTrim (jsStripDashEnd body)
          if cleanContent = "" then none
          else some { content := cleanContent, images := [], scheduledAt := none }

/-- The split `normalized.split(/\n### |^### /)`: without the `m`
flag, `^` only matches the start of the string, so this is a split on
`"\n### "` plus a leading empty chunk when the text starts with
`"### "`. -/
def jsSplitHeaders (s : String) : List String :=
  if jsStartsWith s "### " then "" :: jsSplit (strDrop s 4) "\n### "
  else jsSplit s "\n### "

/-- Result of a successful `gray-matter` parse: the `content` part and
the two fields of `data` read by `parseMarkdownFile` (`undefined`
fields are `none`). -/
structure MatterResult where
  content : String
  images : Option (List String)
  scheduledAt : Option String

/-- Function `parseMarkdownFile` of `src/lib/parser.ts`.  `mf` abstracts the
external `gray-matter` parser used in the legacy single-post fallback;
`mf s = none` models a thrown exception, which the source swallows
with an empty `catch` block. -/
def parseMarkdownFile (dp : String → Option Int) (mf : String → Option MatterResult)
    (content : String) : List ParsedPost :=
  let normalized := jsReplaceAll content "\r\n" "\n"
  let chunks := jsSplitHeaders normalized
  let posts := chunks.filterMap (chunkPost dp)
  if posts.isEmpty then
    match mf content with
    | none => []
    | some parsed =>
      if jsTrim parsed.content = "" then []
      else
        [{ content := jsTrim parsed.content
           images := parsed.images.getD []
           scheduledAt :=
             match parsed.scheduledAt with
             | some sd => if sd = "" then none else parseScheduleDate dp sd
             | none => none }]
  else posts

/-! ## `src/lib/parser.ts` — spreadsheet ingestion -/

/-- A row of `XLSX.utils.sheet_to_json` with the three recognized
columns; a missing cell is `none`.  The binary XLSX decoding itself is
the external library boundary. -/
structure ExcelRow where
  content : Option String
  images : Option String
  scheduledAt : Option String

/-- Function `parseExcelFile` of `src/lib/parser.ts`, from the decoded rows
onward. -/
def parseExcelFile (dp : String → Option Int) (rows : List ExcelRow) : List ParsedPost :=
  (rows.filter (fun row => row.content.getD "" != "" && jsTrim (row.content.getD "") != "")).map
    (fun row =>
      { content := jsTrim (row.content.getD "")
        images :=
          match row.images with
          | some s =>
            if s = "" then []
            else ((jsSplit s ",").map jsTrim).filter (fun x => x != "")
          | none => []
        scheduledAt :=
          match row.scheduledAt with
          | some sd => if sd = "" then none else parseScheduleDate dp sd
          | none => none })

/-! ## `src/lib/parser.ts` — validation -/

/-- Return type of `validatePost`. -/
structure ValidationResult where
  valid : Bool
  errors : List String
  deriving DecidableEq, Repr

/-- Function `validatePost` of `src/lib/parser.ts`.  The three rules are
evaluated independently and push their messages in source order.
`post.content.length` counts characters (`String.length`). -/
def validatePost (post : ParsedPost) : ValidationResult :=
  let errors :=
    (if post.content == "" || jsTrim post.content == "" then ["Content is required"] else [])
    ++ (if post.content != "" && post.content.length > 500 then
          ["Content exceeds 500 characters (" ++ natToStr post.content.length ++ ")"]
        else [])
    ++ ((post.images.filter (fun img =>
          !jsStartsWith img "http://" && !jsStartsWith img "https://" && !jsStartsWith img "/")).map
        (fun img => "Invalid image path: " ++ img))
  { valid := errors.length == 0, errors := errors }

/-! ## `src/lib/threads-api.ts` — publish protocol client

The HTTP exchanges are modelled as an event trace.  The platform's
responses (the `id` field of each successful container/publish call)
are supplied by an oracle `ids : Nat → String` indexed by the number
of container/publish calls already issued. -/

/-- One external API interaction of the publish flow. -/
inductive ApiEvent where
  | createText (text : String)
  | createImage (text imageUrl : String)
  | createCarouselItem (imageUrl : String)
  | createCarousel (text children : String)
  | publishCall (creationId : String)
  | delayMs (ms : Nat)
  deriving DecidableEq, Repr

/-- JavaScript `Array.prototype.join(",")` on character lists. -/
def joinCommaC : List (List Char) → List Char
  | [] => []
  | [x] => x
  | x :: y :: xs => x ++ ',' :: joinCommaC (y :: xs)

/-- JavaScript `itemIds.join(",")`. -/
def joinComma (l : List String) : String := ⟨joinCommaC (l.map String.data)⟩

/-- The `for (const imageUrl of imageUrls)` loop of
`createCarouselContainer`: one item-container call plus a 1000 ms
pacing delay per image, collecting the returned item ids.  `k` counts
the API calls issued so far; returns (events, item ids, next call
index). -/
def carouselItemsLoop (ids : Nat → String) : List String → Nat → List ApiEvent × List String × Nat
  | [], k => ([], [], k)
  | imageUrl :: rest, k =>
    let r := carouselItemsLoop ids rest (k + 1)
    (ApiEvent.createCarouselItem imageUrl :: ApiEvent.delayMs 1000 :: r.1,
     ids k :: r.2.1, r.2.2)

/-- Function `createCarouselContainer` of `src/lib/threads-api.ts`. -/
def createCarouselContainer (ids : Nat → String) (text : String) (imageUrls : List String)
    (k : Nat) : List ApiEvent × String × Nat :=
  let r := carouselItemsLoop ids imageUrls k
  (r.1 ++ [ApiEvent.createCarousel text (joinComma r.2.1)], ids r.2.2, r.2.2 + 1)

/-- Function `createTextContainer` of `src/lib/threads-api.ts`. -/
def createTextContainer (ids : Nat → String) (text : String) (k : Nat) :
    List ApiEvent × String × Nat :=
  ([ApiEvent.createText text], ids k, k + 1)

/-- Function `createImageContainer` of `src/lib/threads-api.ts`. -/
def createImageContainer (ids : Nat → String) (text imageUrl : String) (k : Nat) :
    List ApiEvent × String × Nat :=
  ([ApiEvent.createImage text imageUrl], ids k, k + 1)

/-- Function `publishContainer` of `src/lib/threads-api.ts`. -/
def publishContainer (ids : Nat → String) (creationId : String) (k : Nat) :
    List ApiEvent × String × Nat :=
  ([ApiEvent.publishCall creationId], ids k, k + 1)

/-- Function `publishPost` of `src/lib/threads-api.ts`: dispatch on the number
of images (0 = text, 1 = single image, otherwise carousel), wait a
fixed 2000 ms for media processing, then publish the container.
Returns the event trace and the published post id. -/
def publishPost (ids : Nat → String) (text : String) (imageUrls : List String) :
    List ApiEvent × String :=
  let c : List ApiEvent × String × Nat :=
    match imageUrls with
    | [] => createTextContainer ids text 0
    | [u] => createImageContainer ids text u 0
    | _ => createCarouselContainer ids text imageUrls 0
  let p := publishContainer ids c.2.1 c.2.2
  (c.1 ++ ApiEvent.delayMs 2000 :: p.1, p.2.1)

/-- Is the event an item-container creation call? -/
def isItemEvent : ApiEvent → Bool
  | ApiEvent.createCarouselItem _ => true
  | _ => false

/-- Is the event a carousel-container creation call? -/
def isCarouselEvent : ApiEvent → Bool
  | ApiEvent.createCarousel _ _ => true
  | _ => false

/-- The expected per-image event segment of a carousel publish: the
item-container calls in input order, each followed by the fixed
pacing delay. -/
def itemEvents : List String → List ApiEvent
  | [] => []
  | u :: rest => ApiEvent.createCarouselItem u :: ApiEvent.delayMs 1000 :: itemEvents rest

/-! ## `src/lib/threads-api.ts` — token lifecycle

Times are epoch milliseconds.  The JavaScript calendar arithmetic
`d.setDate(d.getDate() + n)` is modelled as adding `n` whole days of
milliseconds, and `d.setSeconds(d.getSeconds() + n)` as adding
`n * 1000` ms. -/

/-- The `Settings` record (`prisma.settings`, id "default"). -/
structure TokenSettings where
  accessToken : String
  userId : String
  tokenExpiry : Int
  deriving DecidableEq, Repr

/-- Milliseconds per day. -/
def msPerDay : Int := 86400000

/-- Response body of the platform's `refresh_access_token` endpoint. -/
structure TokenRefreshResponse where
  access_token : String
  token_type : String
  expires_in : Int
  deriving DecidableEq, Repr

/-- Function `shouldRefreshToken` of `src/lib/threads-api.ts`: stale when the
stored expiry is at or before now + 7 days; `false` when no settings
record exists. -/
def shouldRefreshToken (settings : Option TokenSettings) (now : Int) : Bool :=
  match settings with
  | none => false
  | some s => s.tokenExpiry ≤ now + 7 * msPerDay

/-- Function `refreshAccessToken` of `src/lib/threads-api.ts`.  The HTTP fetch
is abstracted by `response`: `Except.error msg` models a non-ok
response whose platform error message is `msg` (`none` when absent),
`Except.ok` a successful refresh.  On success the settings record is
updated with the new token and expiry `now + expires_in` seconds.
Returns (updated settings, accessToken, expiresIn) or a thrown
error message. -/
def refreshAccessToken (settings : Option TokenSettings)
    (response : Except (Option String) TokenRefreshResponse) (now : Int) :
    Except String (Option TokenSettings × String × Int) :=
  match settings with
  | none => Except.error "No token found in database. Initialize tokens first."
  | some s =>
    match response with
    | Except.error m => Except.error ("Token refresh failed: " ++ m.getD "Unknown error")
    | Except.ok tokenData =>
      let tokenExpiry := now + tokenData.expires_in * 1000
      Except.ok
        (some { s with accessToken := tokenData.access_token, tokenExpiry := tokenExpiry },
         tokenData.access_token, tokenData.expires_in)

/-- Function `initializeTokensInDB` of `src/lib/threads-api.ts`: when no
settings record exists, seed it from the environment variables
(`none`/empty models an unset variable, which throws) with an expiry
of now + 60 days; an existing record is left untouched.  Returns the
resulting settings state. -/
def initializeTokensInDB (settings : Option TokenSettings)
    (envToken envUserId : Option String) (now : Int) :
    Except String (Option TokenSettings) :=
  match settings with
  | some s => Except.ok (some s)
  | none =>
    if envToken.getD "" = "" ∨ envUserId.getD "" = "" then
      Except.error "THREADS_ACCESS_TOKEN and THREADS_USER_ID must be set in environment variables"
    else
      Except.ok (some { accessToken := envToken.getD ""
                        userId := envUserId.getD ""
                        tokenExpiry := now + 60 * msPerDay })

/-! ## Persisted posts and the bulk-creation handlers -/

/-- The `status` column of the `Post` table. -/
inductive PostStatus where
  | pending
  | published
  | failed
  deriving DecidableEq, Repr

/-- A freshly persisted `Post` row as written by the bulk-creation
handlers (`imageUrls` is kept as the decoded list; the source stores
its JSON serialization). -/
structure NewPostRecord where
  content : String
  imageUrls : List String
  scheduledAt : Int
  status : PostStatus
  deriving DecidableEq, Repr

/-- Response of the bulk POST handlers. -/
inductive CreateResponse where
  | noPosts
  | invalid (details : List (Nat × List String))
  | created (count : Nat)
  deriving DecidableEq, Repr

/-- Common body of the three bulk post-creation handlers: reject an
empty list, validate every post with `validatePost`, reject the whole
batch with per-index error details when any post is invalid, and
otherwise persist every post with status PENDING.  `assign` is the
variant-specific `scheduledAt` policy (given the post's own optional
schedule and the input index). -/
def bulkCreateCore (assign : Option JSDate → Nat → Int) (store : List NewPostRecord)
    (posts : List ParsedPost) : List NewPostRecord × CreateResponse :=
  if posts.isEmpty then (store, CreateResponse.noPosts)
  else
    let validationResults := posts.enum.map (fun ip => (ip.1, validatePost ip.2))
    let invalidPosts := validationResults.filter (fun r => !r.2.valid)
    if !invalidPosts.isEmpty then
      (store, CreateResponse.invalid (invalidPosts.map (fun r => (r.1, r.2.errors))))
    else
      (store ++ posts.enum.map (fun ip =>
        { content := ip.2.content
          imageUrls := ip.2.images
          scheduledAt := assign ip.2.scheduledAt ip.1
          status := PostStatus.pending }),
       CreateResponse.created posts.length)

/-- The bulk handler variant that assigns `baseTime + index * 1000` ms
(1-second increments) to posts without an explicit schedule.  `toTs`
converts an explicit `Date` to its timestamp (timezone abstraction). -/
def bulkCreate1s (toTs : JSDate → Int) (baseTime : Int) :
    List NewPostRecord → List ParsedPost → List NewPostRecord × CreateResponse :=
  bulkCreateCore (fun so i =>
    match so with
    | some d => toTs d
    | none => baseTime + (i : Int) * 1000)

/-- The bulk handler variant that assigns the current time to every
post without an explicit schedule. -/
def bulkCreateNow (toTs : JSDate → Int) (now : Int) :
    List NewPostRecord → List ParsedPost → List NewPostRecord × CreateResponse :=
  bulkCreateCore (fun so _ =>
    match so with
    | some d => toTs d
    | none => now)

/-- The bulk handler variant that assigns `now + index * 60000` ms
(1-minute increments) to posts without an explicit schedule. -/
def bulkCreate1m (toTs : JSDate → Int) (now : Int) :
    List NewPostRecord → List ParsedPost → List NewPostRecord × CreateResponse :=
  bulkCreateCore (fun so i =>
    match so with
    | some d => toTs d
    | none => now + (i : Int) * 60000)

/-! ## The cron publish dispatcher -/

/-- A persisted `Post` row as read by the cron publish handler. -/
structure DbPost where
  id : String
  content : String
  imageUrls : List String
  scheduledAt : Int
  status : PostStatus
  threadsId : Option String
  errorLog : Option String
  deriving DecidableEq, Repr

/-- One entry of the handler's `results` array. -/
structure CronResult where
  id : String
  success : Bool
  threadsId : Option String
  error : Option String
  deriving DecidableEq, Repr

/-- Ordering by `scheduledAt` used by the dispatcher's selection. -/
def schedLE (a b : DbPost) : Prop := a.scheduledAt ≤ b.scheduledAt

instance : DecidableRel schedLE := fun a b => Int.decLe a.scheduledAt b.scheduledAt

instance : IsTotal DbPost schedLE := ⟨fun a b => Int.le_total a.scheduledAt b.scheduledAt⟩

instance : IsTrans DbPost schedLE := ⟨fun _ _ _ hab hbc => le_trans hab hbc⟩

/-- The dispatcher's selection query: PENDING posts whose
`scheduledAt` is due, in ascending `scheduledAt` order, capped at 10
per run (`take: 10`).  The database's `orderBy` is modelled by a
stable sort. -/
def selectDue (store : List DbPost) (now : Int) : List DbPost :=
  (List.insertionSort schedLE
    (store.filter (fun p => p.status == PostStatus.pending && decide (p.scheduledAt ≤ now)))).take 10

/-- Model of the update query by id of the posts table: apply `f` to the
record(s) with the given id. -/
def updatePost (store : List DbPost) (pid : String) (f : DbPost → DbPost) : List DbPost :=
  store.map (fun q => if q.id = pid then f q else q)

/-- The record update performed for one post, determined solely by its
own publish outcome. -/
def applyOutcome (publish : DbPost → Except String String) (p : DbPost) : DbPost :=
  match publish p with
  | Except.ok tid => { p with status := PostStatus.published, threadsId := some tid }
  | Except.error msg => { p with status := PostStatus.failed, errorLog := some msg }

/-- The `results` entry pushed for one post. -/
def outcomeResult (publish : DbPost → Except String String) (p : DbPost) : CronResult :=
  match publish p with
  | Except.ok tid => { id := p.id, success := true, threadsId := some tid, error := none }
  | Except.error msg => { id := p.id, success := false, threadsId := none, error := some msg }

/-- The `for (const post of pendingPosts)` loop of the cron publish
handler: publish each selected post (the abstract `publish` covers
`JSON.parse` of the image list and the whole `publishPost` exchange),
record PUBLISHED + threadsId on success or FAILED + errorLog on
failure, and continue with the next post either way. -/
def processPosts (publish : DbPost → Except String String) :
    List DbPost → List DbPost → List DbPost × List CronResult
  | store, [] => (store, [])
  | store, p :: rest =>
    match publish p with
    | Except.ok tid =>
      let store2 := updatePost store p.id
        (fun q => { q with status := PostStatus.published, threadsId := some tid })
      let r := processPosts publish store2 rest
      (r.1, { id := p.id, success := true, threadsId := some tid, error := none } :: r.2)
    | Except.error msg =>
      let store2 := updatePost store p.id
        (fun q => { q with status := PostStatus.failed, errorLog := some msg })
      let r := processPosts publish store2 rest
      (r.1, { id := p.id, success := false, threadsId := none, error := some msg } :: r.2)

/-- The cron publish `GET` handler (scheduler/dispatcher): select due
PENDING posts and process them sequentially.  Returns the final store
and the `results` array. -/
def cronPublishHandler (publish : DbPost → Except String String) (store : List DbPost)
    (now : Int) : List DbPost × List CronResult :=
  processPosts publish store (selectDue store now)

/-! ## Claim C3 — the post validator -/

/-- Claim C3: `validatePost` is pure and deterministic (it is a plain
function of its argument); its `valid` flag is true exactly when its
`errors` list is empty; non-blank content of exactly 500 characters
with no images validates with no errors, while 501 characters produce
exactly one error whose message names the count 501. -/
theorem validatePost_spec :
    (∀ post : ParsedPost, ((validatePost post).valid = true ↔ (validatePost post).errors = []))
    ∧ validatePost { content := ⟨List.replicate 500 'a'⟩, images := [], scheduledAt := none } =
        { valid := true, errors := [] }
    ∧ validatePost { content := ⟨List.replicate 501 'a'⟩, images := [], scheduledAt := none } =
        { valid := false, errors := ["Content exceeds 500 characters (501)"] } := by
  refine ⟨fun post => ?_, by decide, by decide⟩
  simp [validatePost, List.length_eq_zero]

/-! ## Claim C4 — the date/time normalizer -/

/-- Claim C4: `parseScheduleDate` interprets an exact
`YYYY-MM-DD HH:mm` match as local wall-clock fields (the local `Date`
constructor with month index one less than the written month);
otherwise it falls back to generic date parsing (`dp`); whenever
neither succeeds — including the empty string — it returns `none`,
and it is a total function (never raises). -/
theorem parseScheduleDate_spec (dp : String → Option Int) :
    (∀ s y mo d h mi, matchYMDHM s = some (y, mo, d, h, mi) →
        parseScheduleDate dp s = some (JSDate.mkLocal y (mo - 1) d h mi))
    ∧ (∀ s, matchYMDHM s = none → dp s = none → parseScheduleDate dp s = none)
    ∧ (∀ s, s ≠ "" → matchYMDHM s = none →
        parseScheduleDate dp s = (dp s).map JSDate.fromTimestamp)
    ∧ parseScheduleDate dp "2026-01-20 10:00" = some (JSDate.mkLocal 2026 0 20 10 0)
    ∧ parseScheduleDate dp "" = none := by
  refine ⟨?_, ?_, ?_, ?_, rfl⟩
  · intro s y mo d h mi hm
    have hs : s ≠ "" := by
      intro h0
      rw [h0, show matchYMDHM "" = none from rfl] at hm
      exact Option.noConfusion hm
    unfold parseScheduleDate
    rw [if_neg hs, hm]
  · intro s hm hdp
    unfold parseScheduleDate
    by_cases hs : s = ""
    · rw [if_pos hs]
    · rw [if_neg hs, hm, hdp]; rfl
  · intro s hs hm
    unfold parseScheduleDate
    rw [if_neg hs, hm]
  · rfl

/-- Witness for C4 at concrete inputs: `"not-a-date"` parses to
`none` (with a generic parser that rejects it) and the pattern example
yields the local-time fields of January 20, 2026 10:00. -/
theorem parseScheduleDate_spec_witness :
    parseScheduleDate (fun _ => none) "not-a-date" = none
    ∧ parseScheduleDate (fun _ => none) "2026-01-20 10:00" =
        some (JSDate.mkLocal 2026 0 20 10 0) :=
  ⟨(parseScheduleDate_spec (fun _ => none)).2.1 "not-a-date" (by decide) rfl,
   (parseScheduleDate_spec (fun _ => none)).2.2.2.1⟩

/-! ## Claim C9 — token lifecycle -/

/-- Claim C9: with an existing settings record, `shouldRefreshToken`
reports stale exactly when the stored expiry is at or before now + 7
days; `refreshAccessToken` on a successful platform response persists
the new access token with expiry now + `expires_in` seconds; and
`initializeTokensInDB` with no settings record seeds it from
(non-empty) environment defaults with expiry now + 60 days. -/
theorem token_lifecycle_spec :
    (∀ (s : TokenSettings) (now : Int),
        shouldRefreshToken (some s) now = true ↔ s.tokenExpiry ≤ now + 7 * msPerDay)
    ∧ (∀ (s : TokenSettings) (resp : TokenRefreshResponse) (now : Int),
        refreshAccessToken (some s) (Except.ok resp) now =
          Except.ok (some { s with accessToken := resp.access_token,
                                   tokenExpiry := now + resp.expires_in * 1000 },
                     resp.access_token, resp.expires_in))
    ∧ (∀ (t u : String) (now : Int), t ≠ "" → u ≠ "" →
        initializeTokensInDB none (some t) (some u) now =
          Except.ok (some { accessToken := t, userId := u,
                            tokenExpiry := now + 60 * msPerDay })) := by
  refine ⟨?_, fun s resp now => rfl, ?_⟩
  · intro s now
    simp [shouldRefreshToken]
  · intro t u now ht hu
    simp [initializeTokensInDB, ht, hu]

/-- Witness for C9 at concrete inputs. -/
theorem token_lifecycle_witness :
    (shouldRefreshToken (some { accessToken := "tok", userId := "uid", tokenExpiry := 1000 }) 0 =
        true ↔ (1000 : Int) ≤ 0 + 7 * msPerDay)
    ∧ refreshAccessToken (some { accessToken := "tok", userId := "uid", tokenExpiry := 1000 })
        (Except.ok { access_token := "newtok", token_type := "bearer", expires_in := 5184000 }) 0 =
        Except.ok (some { accessToken := "newtok", userId := "uid",
                          tokenExpiry := 0 + 5184000 * 1000 }, "newtok", 5184000)
    ∧ initializeTokensInDB none (some "envtok") (some "envuid") 0 =
        Except.ok (some { accessToken := "envtok", userId := "envuid",
                          tokenExpiry := 0 + 60 * msPerDay }) :=
  ⟨token_lifecycle_spec.1 { accessToken := "tok", userId := "uid", tokenExpiry := 1000 } 0,
   token_lifecycle_spec.2.1 { accessToken := "tok", userId := "uid", tokenExpiry := 1000 }
     { access_token := "newtok", token_type := "bearer", expires_in := 5184000 } 0,
   token_lifecycle_spec.2.2 "envtok" "envuid" 0 (by decide) (by decide)⟩

/-! ## Claim C2 — carousel publishing -/

/-- Unfolding of the carousel item loop: events are the per-image
item/delay pairs in order, the collected ids are the oracle's answers
for calls `k, k+1, …`, and the call counter advances by the number of
images. -/
theorem carouselItemsLoop_eq (ids : Nat → String) (urls : List String) (k : Nat) :
    carouselItemsLoop ids urls k =
      (itemEvents urls, (List.range' k urls.length).map ids, k + urls.length) := by
  induction urls generalizing k with
  | nil => simp [carouselItemsLoop, itemEvents, List.range']
  | cons u rest ih =>
    simp only [carouselItemsLoop, ih (k + 1), itemEvents, List.length_cons, List.range',
      List.map_cons, Prod.mk.injEq, List.cons.injEq, true_and, and_true]
    omega

/-- Every event of the item segment is an item-container call (one per
image). -/
theorem itemEvents_filter_item (urls : List String) :
    ((itemEvents urls).filter isItemEvent).length = urls.length := by
  induction urls with
  | nil => rfl
  | cons u rest ih => simp [itemEvents, isItemEvent, List.filter_cons, ih]

/-- The item segment contains no carousel-container call. -/
theorem itemEvents_filter_carousel (urls : List String) :
    (itemEvents urls).filter isCarouselEvent = [] := by
  induction urls with
  | nil => rfl
  | cons u rest ih => simp [itemEvents, isCarouselEvent, List.filter_cons, ih]

/-- Claim C2: publishing a post with `n ≥ 2` images issues exactly the
`n` item-container calls sequentially in input order, each followed by
the fixed 1000 ms pacing delay, then exactly one carousel-container
call whose `children` is the comma-join of the `n` item ids in the
same order, then the fixed processing wait and the publish call. -/
theorem publishPost_carousel (ids : Nat → String) (text : String) (urls : List String)
    (h : 2 ≤ urls.length) :
    publishPost ids text urls =
      (itemEvents urls ++
         ApiEvent.createCarousel text (joinComma ((List.range urls.length).map ids)) ::
         ApiEvent.delayMs 2000 :: [ApiEvent.publishCall (ids urls.length)],
       ids (urls.length + 1))
    ∧ ((publishPost ids text urls).1.filter isItemEvent).length = urls.length
    ∧ ((publishPost ids text urls).1.filter isCarouselEvent).length = 1 := by
  obtain ⟨a, b, rest, rfl⟩ : ∃ a b rest, urls = a :: b :: rest := by
    match urls, h with
    | a :: b :: rest, _ => exact ⟨a, b, rest, rfl⟩
  have hmain :
      publishPost ids text (a :: b :: rest) =
        (itemEvents (a :: b :: rest) ++
           ApiEvent.createCarousel text
             (joinComma ((List.range (a :: b :: rest).length).map ids)) ::
           ApiEvent.delayMs 2000 ::
           [ApiEvent.publishCall (ids (a :: b :: rest).length)],
         ids ((a :: b :: rest).length + 1)) := by
    show (let c := createCarouselContainer ids text (a :: b :: rest) 0
          let p := publishContainer ids c.2.1 c.2.2
          (c.1 ++ ApiEvent.delayMs 2000 :: p.1, p.2.1)) = _
    simp only [createCarouselContainer, publishContainer, carouselItemsLoop_eq,
      List.range_eq_range', Nat.zero_add, List.append_assoc, List.cons_append,
      List.nil_append, List.singleton_append]
  refine ⟨hmain, ?_, ?_⟩
  · rw [hmain]
    simp [List.filter_append, itemEvents_filter_item, List.filter_cons,
      isItemEvent]
  · rw [hmain]
    simp [List.filter_append, itemEvents_filter_carousel, List.filter_cons,
      isCarouselEvent]

/-- Witness for C2 with three images: three item calls, then the
carousel call with the three ids comma-joined in order. -/
theorem publishPost_carousel_witness :
    publishPost natToStr "t" ["a", "b", "c"] =
      (itemEvents ["a", "b", "c"] ++
         ApiEvent.createCarousel "t" (joinComma ((List.range (["a", "b", "c"] : List String).length).map natToStr)) ::
         ApiEvent.delayMs 2000 ::
         [ApiEvent.publishCall (natToStr (["a", "b", "c"] : List String).length)],
       natToStr ((["a", "b", "c"] : List String).length + 1))
    ∧ ((publishPost natToStr "t" ["a", "b", "c"]).1.filter isItemEvent).length =
        (["a", "b", "c"] : List String).length
    ∧ ((publishPost natToStr "t" ["a", "b", "c"]).1.filter isCarouselEvent).length = 1 :=
  publishPost_carousel natToStr "t" ["a", "b", "c"] (by decide)

/-! ## Claims C8 and C10 — bulk creation handlers -/

/-- Second components of enumerated pairs are list members. -/
theorem snd_mem_of_mem_enum {α : Type} {l : List α} {ip : Nat × α} (h : ip ∈ l.enum) :
    ip.2 ∈ l := by
  have h2 := List.mem_enum_iff_getElem?.mp h
  exact List.getElem?_mem h2

/-- When every post validates, the bulk-creation core persists the
whole batch (appended to the store in input order, status PENDING)
and reports the created count. -/
theorem bulkCreateCore_all_valid (assign : Option JSDate → Nat → Int)
    (store : List NewPostRecord) (posts : List ParsedPost) (hne : posts ≠ [])
    (hv : ∀ p ∈ posts, (validatePost p).valid = true) :
    bulkCreateCore assign store posts =
      (store ++ posts.enum.map (fun ip =>
         { content := ip.2.content, imageUrls := ip.2.images,
           scheduledAt := assign ip.2.scheduledAt ip.1,
           status := PostStatus.pending }),
       CreateResponse.created posts.length) := by
  unfold bulkCreateCore
  rw [if_neg (by simp [List.isEmpty_iff, hne])]
  have hfil :
      (posts.enum.map (fun ip => (ip.1, validatePost ip.2))).filter (fun r => !r.2.valid) = [] := by
    rw [List.filter_map]
    rw [List.filter_eq_nil_iff.mpr ?_]
    · rfl
    · intro ip hip hcontra
      have hmem : ip.2 ∈ posts := snd_mem_of_mem_enum hip
      rw [Function.comp_apply] at hcontra
      simp [hv ip.2 hmem] at hcontra
  simp only [hfil]
  rfl

/-- When some post fails validation, the bulk-creation core leaves the
store unchanged and reports the indexed error lists of every invalid
post. -/
theorem bulkCreateCore_invalid (assign : Option JSDate → Nat → Int)
    (store : List NewPostRecord) (posts : List ParsedPost)
    (hex : ∃ p ∈ posts, (validatePost p).valid = false) :
    bulkCreateCore assign store posts =
      (store, CreateResponse.invalid
        ((posts.enum.filter (fun ip => !(validatePost ip.2).valid)).map
          (fun ip => (ip.1, (validatePost ip.2).errors)))) := by
  obtain ⟨p, hp, hvp⟩ := hex
  have hne : posts ≠ [] := by rintro rfl; exact absurd hp (List.not_mem_nil p)
  unfold bulkCreateCore
  rw [if_neg (by simp [List.isEmpty_iff, hne])]
  have hfe :
      (posts.enum.map (fun ip => (ip.1, validatePost ip.2))).filter (fun r => !r.2.valid) =
        (posts.enum.filter (fun ip => !(validatePost ip.2).valid)).map
          (fun ip => (ip.1, validatePost ip.2)) := by
    rw [List.filter_map]
    rfl
  have hne2 : (posts.enum.filter (fun ip => !(validatePost ip.2).valid)) ≠ [] := by
    have hx : ∃ x ∈ posts.enum, (!(validatePost x.2).valid) = true := by
      rw [List.exists_mem_enum]
      obtain ⟨i, hi, hgi⟩ := List.mem_iff_getElem.mp hp
      exact ⟨i, hi, by simp [hgi, hvp]⟩
    obtain ⟨x, hx1, hx2⟩ := hx
    exact List.ne_nil_of_mem (List.mem_filter.mpr ⟨hx1, hx2⟩)
  simp only [hfe]
  rw [if_pos (by simp [List.isEmpty_iff, List.map_eq_nil_iff, hne2])]
  rw [List.map_map]
  rfl

/-- Claim C8: batch ingestion is all-or-nothing.  If any post fails
`validatePost`, the request is rejected with the indexed violation
list of every invalid post and the store is unchanged; if every post
validates (and the batch is non-empty), every post of the batch is
persisted with status PENDING. -/
theorem bulk_create_all_or_nothing (assign : Option JSDate → Nat → Int)
    (store : List NewPostRecord) (posts : List ParsedPost) :
    ((∃ p ∈ posts, (validatePost p).valid = false) →
        bulkCreateCore assign store posts =
          (store, CreateResponse.invalid
            ((posts.enum.filter (fun ip => !(validatePost ip.2).valid)).map
              (fun ip => (ip.1, (validatePost ip.2).errors)))))
    ∧ (posts ≠ [] → (∀ p ∈ posts, (validatePost p).valid = true) →
        bulkCreateCore assign store posts =
          (store ++ posts.enum.map (fun ip =>
             { content := ip.2.content, imageUrls := ip.2.images,
               scheduledAt := assign ip.2.scheduledAt ip.1,
               status := PostStatus.pending }),
           CreateResponse.created posts.length)
        ∧ ∀ r ∈ posts.enum.map (fun ip =>
             ({ content := ip.2.content, imageUrls := ip.2.images,
                scheduledAt := assign ip.2.scheduledAt ip.1,
                status := PostStatus.pending } : NewPostRecord)),
            r.status = PostStatus.pending) := by
  refine ⟨bulkCreateCore_invalid assign store posts, fun hne hv => ⟨?_, ?_⟩⟩
  · exact bulkCreateCore_all_valid assign store posts hne hv
  · intro r hr
    obtain ⟨ip, _, rfl⟩ := List.mem_map.mp hr
    rfl

/-- Witness for C8: a batch containing a blank post is rejected with
the store unchanged; a fully valid batch is persisted. -/
theorem bulk_create_all_or_nothing_witness :
    (bulkCreateCore (fun _ _ => 0) []
        [{ content := "hi", images := [], scheduledAt := none },
         { content := " ", images := [], scheduledAt := none }] =
      ([], CreateResponse.invalid
        ((([{ content := "hi", images := [], scheduledAt := none },
            { content := " ", images := [], scheduledAt := none }] : List ParsedPost).enum.filter
              (fun ip => !(validatePost ip.2).valid)).map
          (fun ip => (ip.1, (validatePost ip.2).errors)))))
    ∧ bulkCreateCore (fun _ _ => 0) [] [{ content := "hi", images := [], scheduledAt := none }] =
        ([] ++ ([{ content := "hi", images := [], scheduledAt := none }] : List ParsedPost).enum.map
            (fun ip =>
              { content := ip.2.content, imageUrls := ip.2.images,
                scheduledAt := (fun (_ : Option JSDate) (_ : Nat) => (0 : Int)) ip.2.scheduledAt ip.1,
                status := PostStatus.pending }),
         CreateResponse.created
           ([{ content := "hi", images := [], scheduledAt := none }] : List ParsedPost).length) :=
  ⟨(bulk_create_all_or_nothing (fun _ _ => 0) []
      [{ content := "hi", images := [], scheduledAt := none },
       { content := " ", images := [], scheduledAt := none }]).1 (by decide),
   ((bulk_create_all_or_nothing (fun _ _ => 0) []
      [{ content := "hi", images := [], scheduledAt := none }]).2 (by decide) (by decide)).1⟩

/-- The schedules assigned to a fully valid batch, in persistence
order. -/
theorem bulkCore_new_scheds (assign : Option JSDate → Nat → Int)
    (store : List NewPostRecord) (posts : List ParsedPost) (hne : posts ≠ [])
    (hv : ∀ p ∈ posts, (validatePost p).valid = true) :
    ((bulkCreateCore assign store posts).1.drop store.length).map (fun r => r.scheduledAt) =
      posts.enum.map (fun ip => assign ip.2.scheduledAt ip.1) := by
  rw [bulkCreateCore_all_valid assign store posts hne hv]
  show ((store ++ _).drop store.length).map _ = _
  rw [List.drop_left, List.map_map]
  rfl

/-- Claim C10: in the bulk handlers that assign incrementing
timestamps (`baseTime + index * 1000` ms and `now + index * 60000`
ms), a fully valid batch in which no post carries its own schedule is
persisted with strictly increasing `scheduledAt` values in input-list
order, so ascending `scheduledAt` selection reproduces upload order. -/
theorem bulk_create_fifo (toTs : JSDate → Int) (base now : Int) (store : List NewPostRecord)
    (posts : List ParsedPost) (hne : posts ≠ [])
    (hv : ∀ p ∈ posts, (validatePost p).valid = true)
    (hs : ∀ p ∈ posts, p.scheduledAt = none) :
    List.Pairwise (fun a b : Int => a < b)
      (((bulkCreate1s toTs base store posts).1.drop store.length).map (fun r => r.scheduledAt))
    ∧ List.Pairwise (fun a b : Int => a < b)
      (((bulkCreate1m toTs now store posts).1.drop store.length).map (fun r => r.scheduledAt)) := by
  have key : ∀ (k c : Int), 0 < k →
      List.Pairwise (fun a b : Int => a < b)
        ((posts.enum.map (fun ip => c + (ip.1 : Int) * k))) := by
    intro k c hk
    have h1 : posts.enum.map (fun ip => c + (ip.1 : Int) * k) =
        (posts.enum.map Prod.fst).map (fun i : Nat => c + (i : Int) * k) := by
      rw [List.map_map]; rfl
    rw [h1, List.enum_map_fst]
    refine (List.pairwise_lt_range posts.length).map (fun i : Nat => c + (i : Int) * k) ?_
    intro a b hab
    have hab2 : (a : Int) < (b : Int) := by exact_mod_cast hab
    have h3 := mul_lt_mul_of_pos_right hab2 hk
    show c + (a : Int) * k < c + (b : Int) * k
    exact add_lt_add_left h3 c
  constructor
  · have h2 : ((bulkCreate1s toTs base store posts).1.drop store.length).map
        (fun r => r.scheduledAt) =
        posts.enum.map (fun ip =>
          match ip.2.scheduledAt with
          | some d => toTs d
          | none => base + (ip.1 : Int) * 1000) :=
      bulkCore_new_scheds _ store posts hne hv
    rw [h2]
    have heq : posts.enum.map (fun ip =>
        match ip.2.scheduledAt with
        | some d => toTs d
        | none => base + (ip.1 : Int) * 1000) =
        posts.enum.map (fun ip => base + (ip.1 : Int) * 1000) := by
      apply List.map_congr_left
      intro ip hip
      rw [hs ip.2 (snd_mem_of_mem_enum hip)]
    rw [heq]
    exact key 1000 base (by norm_num)
  · have h2 : ((bulkCreate1m toTs now store posts).1.drop store.length).map
        (fun r => r.scheduledAt) =
        posts.enum.map (fun ip =>
          match ip.2.scheduledAt with
          | some d => toTs d
          | none => now + (ip.1 : Int) * 60000) :=
      bulkCore_new_scheds _ store posts hne hv
    rw [h2]
    have heq : posts.enum.map (fun ip =>
        match ip.2.scheduledAt with
        | some d => toTs d
        | none => now + (ip.1 : Int) * 60000) =
        posts.enum.map (fun ip => now + (ip.1 : Int) * 60000) := by
      apply List.map_congr_left
      intro ip hip
      rw [hs ip.2 (snd_mem_of_mem_enum hip)]
    rw [heq]
    exact key 60000 now (by norm_num)

/-- Witness for C10 with a three-post batch and no explicit
schedules. -/
theorem bulk_create_fifo_witness :
    List.Pairwise (fun a b : Int => a < b)
      (((bulkCreate1s (fun _ => 0) 100 []
          [{ content := "p1", images := [], scheduledAt := none },
           { content := "p2", images := [], scheduledAt := none },
           { content := "p3", images := [], scheduledAt := none }]).1.drop
            ([] : List NewPostRecord).length).map (fun r => r.scheduledAt))
    ∧ List.Pairwise (fun a b : Int => a < b)
      (((bulkCreate1m (fun _ => 0) 100 []
          [{ content := "p1", images := [], scheduledAt := none },
           { content := "p2", images := [], scheduledAt := none },
           { content := "p3", images := [], scheduledAt := none }]).1.drop
            ([] : List NewPostRecord).length).map (fun r => r.scheduledAt)) :=
  bulk_create_fifo (fun _ => 0) 100 100 []
    [{ content := "p1", images := [], scheduledAt := none },
     { content := "p2", images := [], scheduledAt := none },
     { content := "p3", images := [], scheduledAt := none }]
    (by decide) (by decide) (by decide)

/-! ## Claim C1 — parser output invariant -/

/-- Dropping while a predicate holds is idempotent. -/
theorem dropWhile_dropWhile_eq (p : Char → Bool) (l : List Char) :
    (l.dropWhile p).dropWhile p = l.dropWhile p := by
  induction l with
  | nil => rfl
  | cons a rest ih =>
    by_cases h : p a = true
    · simp [List.dropWhile_cons, h, ih]
    · simp [List.dropWhile_cons, h]

/-- Dropping while a predicate holds returns a suffix of the input. -/
theorem dropWhile_suffix (p : Char → Bool) (l : List Char) : l.dropWhile p <:+ l := by
  induction l with
  | nil => exact List.suffix_refl []
  | cons a rest ih =>
    by_cases h : p a = true
    · rw [List.dropWhile_cons_of_pos h]
      exact ih.trans (List.suffix_cons a rest)
    · rw [List.dropWhile_cons, if_neg h]

/-- Right-trimming returns a prefix of its input. -/
theorem trimRightC_prefix_self (l : List Char) : trimRightC l <+: l := by
  have h2 : (l.reverse.dropWhile isJsWs).reverse <+: l.reverse.reverse :=
    List.reverse_prefix.mpr (dropWhile_suffix isJsWs l.reverse)
  simpa [trimRightC] using h2

/-- Right-trimming is idempotent. -/
theorem trimRightC_idem (l : List Char) : trimRightC (trimRightC l) = trimRightC l := by
  unfold trimRightC
  rw [List.reverse_reverse, dropWhile_dropWhile_eq]

/-- A prefix of a `dropWhile`-fixed list is itself fixed. -/
theorem dropWhile_eq_self_of_prefix_self {p : Char → Bool} {l m : List Char}
    (hl : l.dropWhile p = l) (hm : m <+: l) : m.dropWhile p = m := by
  cases m with
  | nil => rfl
  | cons a m2 =>
    obtain ⟨t, ht⟩ := hm
    have hpa : p a = false := by
      cases hpa3 : p a with
      | false => rfl
      | true =>
        rw [← ht, List.cons_append, List.dropWhile_cons_of_pos hpa3] at hl
        have hlen := congrArg List.length hl
        have hle : ((m2 ++ t).dropWhile p).length ≤ (m2 ++ t).length :=
          (dropWhile_suffix p (m2 ++ t)).length_le
        simp only [List.length_cons] at hlen
        omega
    rw [List.dropWhile_cons, hpa]
    simp

/-- Full trimming is idempotent. -/
theorem trimC_idem (l : List Char) : trimC (trimC l) = trimC l := by
  show trimRightC (trimLeftC (trimRightC (trimLeftC l))) = trimRightC (trimLeftC l)
  have h1 : (trimLeftC l).dropWhile isJsWs = trimLeftC l := dropWhile_dropWhile_eq isJsWs l
  have h2 : trimLeftC (trimRightC (trimLeftC l)) = trimRightC (trimLeftC l) :=
    dropWhile_eq_self_of_prefix_self h1 (trimRightC_prefix_self (trimLeftC l))
  rw [h2, trimRightC_idem]

/-- Trimming is idempotent: `jsTrim` outputs equal their own trimmed form. -/
theorem jsTrim_idem (s : String) : jsTrim (jsTrim s) = jsTrim s :=
  congrArg String.mk (trimC_idem s.data)

/-- The content of a frontmatter-parsed post is a `jsTrim` image. -/
theorem parseFrontmatter_content {dp : String → Option Int} {a b : String} {p : ParsedPost}
    (h : parseFrontmatter dp a b = some p) :
    p.content = jsTrim (stripLeadHeader (jsTrim (stripTrailSep b))) := by
  simp only [parseFrontmatter] at h
  split at h
  · exact absurd h (by simp)
  · obtain rfl := Option.some.inj h
    rfl

/-- The content of every post emitted by the chunk loop is a `jsTrim`
image. -/
theorem chunkPost_content {dp : String → Option Int} {c : String} {p : ParsedPost}
    (h : chunkPost dp c = some p) : ∃ x, p.content = jsTrim x := by
  simp only [chunkPost] at h
  split at h
  · exact absurd h (by simp)
  split at h
  · exact absurd h (by simp)
  split at h
  · exact absurd h (by simp)
  split at h
  · exact absurd h (by simp)
  split at h
  case _ inner whole _ =>
    split at h
    · exact ⟨_, parseFrontmatter_content h⟩
    · obtain rfl := Option.some.inj h
      exact ⟨inner, rfl⟩
  · split at h
    · exact absurd h (by simp)
    · obtain rfl := Option.some.inj h
      exact ⟨_, rfl⟩

/-- The content of every post emitted by `parseMarkdownFile` is a
`jsTrim` image. -/
theorem parseMarkdownFile_content {dp : String → Option Int}
    {mf : String → Option MatterResult} {s : String} {p : ParsedPost}
    (h : p ∈ parseMarkdownFile dp mf s) : ∃ x, p.content = jsTrim x := by
  simp only [parseMarkdownFile] at h
  split at h
  · split at h
    · exact absurd h (List.not_mem_nil p)
    · split at h
      · exact absurd h (List.not_mem_nil p)
      · have hp := List.mem_singleton.mp h
        exact ⟨_, by rw [hp]⟩
  · obtain ⟨c, _, hc⟩ := List.mem_filterMap.mp h
    exact chunkPost_content hc

/-- Claim C1 (amended): every post emitted by `parseMarkdownFile` has
content equal to its own trimmed form, and every post emitted by
`parseExcelFile` additionally has non-empty content.  (The original
claim's non-emptiness for the markdown parser fails on the
content-only branch; see the counterexample.) -/
theorem parser_output_content_trimmed (dp : String → Option Int)
    (mf : String → Option MatterResult) (s : String) (rows : List ExcelRow) :
    (∀ p ∈ parseMarkdownFile dp mf s, jsTrim p.content = p.content)
    ∧ (∀ p ∈ parseExcelFile dp rows, jsTrim p.content = p.content ∧ p.content ≠ "") := by
  constructor
  · intro p hp
    obtain ⟨x, hx⟩ := parseMarkdownFile_content hp
    rw [hx, jsTrim_idem]
  · intro p hp
    simp only [parseExcelFile] at hp
    obtain ⟨row, hrow, rfl⟩ := List.mem_map.mp hp
    have hf := (List.mem_filter.mp hrow).2
    simp only [Bool.and_eq_true, bne_iff_ne, ne_eq] at hf
    exact ⟨jsTrim_idem (row.content.getD ""), hf.2⟩

/-- Witness for C1's amended statement at concrete inputs. -/
theorem parser_output_content_trimmed_witness :
    jsTrim ("Hi" : String) = "Hi" ∧ (jsTrim ("Row" : String) = "Row" ∧ ("Row" : String) ≠ "") :=
  ⟨by
    have h := (parser_output_content_trimmed (fun _ => none) (fun _ => none) "### A\nHi"
      []).1 { content := "Hi", images := [], scheduledAt := none } (by decide)
    exact h,
   by
    have h := (parser_output_content_trimmed (fun _ => none) (fun _ => none) ""
      [{ content := some "Row", images := none, scheduledAt := none }]).2
      { content := "Row", images := [], scheduledAt := none } (by decide)
    exact h⟩

/-- Counterexample to Claim C1 as stated: the content-only branch of
`parseMarkdownFile` emits a post whose content is empty (not non-empty)
when the separator-delimited block trims to nothing. -/
theorem parser_nonempty_counterexample :
    parseMarkdownFile (fun _ => none) (fun _ => none) "### H\n---\n\n---" =
      [{ content := "", images := [], scheduledAt := none }]
    ∧ ({ content := "", images := [], scheduledAt := none } : ParsedPost) ∈
        parseMarkdownFile (fun _ => none) (fun _ => none) "### H\n---\n\n---"
    ∧ ({ content := "", images := [], scheduledAt := none } : ParsedPost).content = "" :=
  ⟨by decide, by decide, rfl⟩

/-! ## Claim C5 — content-only separator blocks -/

/-- Claim C5: a header-delimited segment whose body carries a
separator-delimited block containing neither metadata key is emitted
with the block itself (trimmed) as the content, empty images, null
schedule — whatever text follows the second separator is discarded
(the conclusion does not depend on it); in particular the markdown
input with block `Hello world` yields exactly that one post. -/
theorem content_only_block (dp : String → Option Int) (mf : String → Option MatterResult) :
    (∀ (chunk inner whole : String) (i : Nat),
        jsTrim chunk ≠ "" →
        jsStartsWith (jsTrim chunk) "# " = false →
        idxOfSub ['\n'] chunk.data = some i →
        jsTrim (strDrop chunk i) ≠ "" →
        sepMatch (jsTrim (strDrop chunk i)) = some (inner, whole) →
        containsSub (jsTrim inner) "scheduledAt:" = false →
        containsSub (jsTrim inner) "images:" = false →
        chunkPost dp chunk = some { content := jsTrim inner, images := [], scheduledAt := none })
    ∧ parseMarkdownFile dp mf "### P1\n---\nHello world\n---\n" =
        [{ content := "Hello world", images := [], scheduledAt := none }] := by
  constructor
  · intro chunk inner whole i h1 h2 h3 h4 h5 h6 h7
    simp only [chunkPost, h3]
    rw [if_neg h1, if_neg (by simp [h2])]
    simp only [h5]
    rw [if_neg h4, if_neg (by simp [h6, h7])]
  · rfl

/-- Witness for C5's general branch at the concrete segment of the
example input. -/
theorem content_only_block_witness :
    chunkPost (fun _ => none) "P1\n---\nHello world\n---" =
      some { content := jsTrim "Hello world", images := [], scheduledAt := none } :=
  (content_only_block (fun _ => none) (fun _ => none)).1
    "P1\n---\nHello world\n---" "Hello world" "---\nHello world\n---" 2
    (by decide) (by decide) (by decide) (by decide) (by decide) (by decide) (by decide)

/-! ## Claim C6 — single-document fallback -/

/-- Claim C6 (amended): when the header-delimited dialect yields zero
posts, the whole text is parsed as one standard frontmatter document
and emitted as a single post when its trimmed content is non-empty;
when that parse raises (modelled by `mf s = none`), the exception is
swallowed and the empty list is returned — not a one-post fallback —
and a successful parse with blank content likewise yields the empty
list. -/
theorem markdown_fallback (dp : String → Option Int) (mf : String → Option MatterResult)
    (s : String)
    (h : (jsSplitHeaders (jsReplaceAll s "\r\n" "\n")).filterMap (chunkPost dp) = []) :
    (mf s = none → parseMarkdownFile dp mf s = [])
    ∧ (∀ r, mf s = some r → jsTrim r.content ≠ "" →
        parseMarkdownFile dp mf s =
          [{ content := jsTrim r.content, images := r.images.getD [],
             scheduledAt :=
               match r.scheduledAt with
               | some sd => if sd = "" then none else parseScheduleDate dp sd
               | none => none }])
    ∧ (∀ r, mf s = some r → jsTrim r.content = "" → parseMarkdownFile dp mf s = []) := by
  refine ⟨?_, ?_, ?_⟩
  · intro hmf
    simp [parseMarkdownFile, h, hmf]
  · intro r hmf htr
    simp [parseMarkdownFile, h, hmf, htr]
  · intro r hmf htr
    simp [parseMarkdownFile, h, hmf, htr]

/-- Witness for C6's amended statement: on `"hello"` the dialect
yields nothing; a successful single-document parse emits the one
post. -/
theorem markdown_fallback_witness :
    parseMarkdownFile (fun _ => none)
      (fun _ => some { content := "hello", images := none, scheduledAt := none }) "hello" =
      [{ content := jsTrim "hello",
         images := (none : Option (List String)).getD [],
         scheduledAt := none }] := by
  have h := (markdown_fallback (fun _ => none)
    (fun _ => some { content := "hello", images := none, scheduledAt := none }) "hello"
    (by decide)).2.1 { content := "hello", images := none, scheduledAt := none } rfl (by decide)
  exact h

/-- Counterexample to Claim C6 as stated: with the header-delimited
dialect yielding zero posts on `"hello"` and the frontmatter parse
raising (modelled `none`), `parseMarkdownFile` returns the empty
list — the entire trimmed text (`"hello"`, non-empty) is NOT emitted
as a fallback post. -/
theorem markdown_fallback_counterexample :
    parseMarkdownFile (fun _ => none) (fun _ => none) "hello" = []
    ∧ jsTrim "hello" ≠ "" :=
  ⟨by decide, by decide⟩

/-! ## Claim C7 — scheduler/dispatcher independence -/

/-- The dispatcher's `results` array records one outcome per selected
post, in order, each determined solely by that post's own publish
outcome — so an earlier failure never prevents a later attempt. -/
theorem processPosts_results (publish : DbPost → Except String String)
    (sel : List DbPost) : ∀ store : List DbPost,
    (processPosts publish store sel).2 = sel.map (outcomeResult publish) := by
  induction sel with
  | nil => intro store; rfl
  | cons p rest ih =>
    intro store
    cases hp : publish p with
    | ok tid => simp [processPosts, hp, ih, outcomeResult]
    | error m => simp [processPosts, hp, ih, outcomeResult]

/-- Updates via `updatePost` do not change the id column. -/
theorem updatePost_map_id (store : List DbPost) (pid : String) (f : DbPost → DbPost)
    (hid : ∀ q, (f q).id = q.id) :
    (updatePost store pid f).map (fun q => q.id) = store.map (fun q => q.id) := by
  unfold updatePost
  rw [List.map_map]
  apply List.map_congr_left
  intro q _
  by_cases h : q.id = pid
  · simp [h, hid q]
  · simp [h]

/-- Updating the record with a given id rewrites what `find?` returns
for that id. -/
theorem find?_updatePost_self {store : List DbPost} {h : DbPost} {f : DbPost → DbPost}
    (hid : ∀ q, (f q).id = q.id)
    (hf : store.find? (fun q => q.id == h.id) = some h) :
    (updatePost store h.id f).find? (fun q => q.id == h.id) = some (f h) := by
  induction store with
  | nil => simp [List.find?] at hf
  | cons a rest ih =>
    by_cases ha : a.id = h.id
    · rw [List.find?_cons_of_pos rest (by simp [ha])] at hf
      obtain rfl := Option.some.inj hf
      unfold updatePost
      rw [List.map_cons, if_pos ha]
      exact List.find?_cons_of_pos _ (by simp [hid a, ha])
    · rw [List.find?_cons_of_neg rest (by simp [ha])] at hf
      unfold updatePost
      rw [List.map_cons, if_neg ha]
      rw [List.find?_cons_of_neg _ (by simp [ha])]
      exact ih hf

/-- Updating one id leaves `find?` for any other id unchanged. -/
theorem find?_updatePost_ne {store : List DbPost} {pid qid : String} {f : DbPost → DbPost}
    (hne : pid ≠ qid) (hid : ∀ q, (f q).id = q.id) :
    (updatePost store pid f).find? (fun q => q.id == qid) =
      store.find? (fun q => q.id == qid) := by
  induction store with
  | nil => rfl
  | cons a rest ih =>
    unfold updatePost
    rw [List.map_cons]
    by_cases ha : a.id = pid
    · rw [if_pos ha]
      have h1 : ((f a).id == qid) = false := by
        rw [hid a, ha]
        simp [hne]
      have h2 : (a.id == qid) = false := by
        rw [ha]
        simp [hne]
      rw [List.find?_cons_of_neg _ (by simp [h1]), List.find?_cons_of_neg _ (by simp [h2])]
      exact ih
    · rw [if_neg ha]
      by_cases hq : a.id = qid
      · rw [List.find?_cons_of_pos _ (by simp [hq]), List.find?_cons_of_pos _ (by simp [hq])]
      · rw [List.find?_cons_of_neg _ (by simp [hq]), List.find?_cons_of_neg _ (by simp [hq])]
        exact ih

/-- Processing posts none of which carry a given id leaves `find?`
for that id unchanged. -/
theorem processPosts_find_untouched (publish : DbPost → Except String String)
    (sel : List DbPost) : ∀ (store : List DbPost) (qid : String),
    (∀ p ∈ sel, p.id ≠ qid) →
    (processPosts publish store sel).1.find? (fun q => q.id == qid) =
      store.find? (fun q => q.id == qid) := by
  induction sel with
  | nil => intro store qid _; rfl
  | cons p rest ih =>
    intro store qid hq
    have hp := hq p (List.mem_cons_self p rest)
    cases hpub : publish p with
    | ok tid =>
      simp only [processPosts, hpub]
      rw [ih _ qid (fun r hr => hq r (List.mem_cons_of_mem p hr))]
      exact find?_updatePost_ne hp (fun q => rfl)
    | error m =>
      simp only [processPosts, hpub]
      rw [ih _ qid (fun r hr => hq r (List.mem_cons_of_mem p hr))]
      exact find?_updatePost_ne hp (fun q => rfl)

/-- With unique ids, `find?` retrieves a member record itself. -/
theorem find?_eq_self_of_nodup {p : DbPost} : ∀ {store : List DbPost},
    (store.map (fun q => q.id)).Nodup → p ∈ store →
    store.find? (fun q => q.id == p.id) = some p := by
  intro store
  induction store with
  | nil => intro _ hp; cases hp
  | cons a rest ih =>
    intro hnd hp
    simp only [List.map_cons, List.nodup_cons] at hnd
    rcases List.mem_cons.mp hp with rfl | hmem
    · exact List.find?_cons_of_pos rest (by simp)
    · have hane : (a.id == p.id) = false := by
        have : a.id ≠ p.id := by
          intro he
          exact hnd.1 (he ▸ List.mem_map_of_mem (fun q => q.id) hmem)
        simp [this]
      rw [List.find?_cons_of_neg rest (by simp [hane])]
      exact ih hnd.2 hmem

/-- After one dispatcher pass, each selected post's stored record is
exactly its own outcome applied to it: PUBLISHED + threadsId on
success, FAILED + errorLog on failure. -/
theorem processPosts_find (publish : DbPost → Except String String) :
    ∀ (sel store : List DbPost),
      (store.map (fun q => q.id)).Nodup →
      ((sel.map (fun q => q.id)).Nodup) →
      (∀ p ∈ sel, store.find? (fun q => q.id == p.id) = some p) →
      ∀ p ∈ sel,
        (processPosts publish store sel).1.find? (fun q => q.id == p.id) =
          some (applyOutcome publish p) := by
  intro sel
  induction sel with
  | nil => intro store _ _ _ p hp; cases hp
  | cons hd rest ih =>
    intro store hstore hsel hfind p hp
    simp only [List.map_cons, List.nodup_cons] at hsel
    have hhd := hfind hd (List.mem_cons_self hd rest)
    have hrestne : ∀ r ∈ rest, r.id ≠ hd.id := by
      intro r hr he
      exact hsel.1 (he ▸ List.mem_map_of_mem (fun q => q.id) hr)
    cases hpub : publish hd with
    | ok tid =>
      simp only [processPosts, hpub]
      have hid : ∀ q : DbPost,
          ({ q with status := PostStatus.published, threadsId := some tid } : DbPost).id = q.id :=
        fun q => rfl
      rcases List.mem_cons.mp hp with rfl | hmem
      · rw [processPosts_find_untouched publish rest _ p.id hrestne]
        rw [find?_updatePost_self hid hhd]
        simp [applyOutcome, hpub]
      · apply ih _ (by rw [updatePost_map_id _ _ _ hid]; exact hstore) hsel.2
        · intro r hr
          rw [find?_updatePost_ne (fun he => hrestne r hr he.symm) hid]
          exact hfind r (List.mem_cons_of_mem hd hr)
        · exact hmem
    | error msg =>
      simp only [processPosts, hpub]
      have hid : ∀ q : DbPost,
          ({ q with status := PostStatus.failed, errorLog := some msg } : DbPost).id = q.id :=
        fun q => rfl
      rcases List.mem_cons.mp hp with rfl | hmem
      · rw [processPosts_find_untouched publish rest _ p.id hrestne]
        rw [find?_updatePost_self hid hhd]
        simp [applyOutcome, hpub]
      · apply ih _ (by rw [updatePost_map_id _ _ _ hid]; exact hstore) hsel.2
        · intro r hr
          rw [find?_updatePost_ne (fun he => hrestne r hr he.symm) hid]
          exact hfind r (List.mem_cons_of_mem hd hr)
        · exact hmem

/-- Selected posts are members of the store. -/
theorem selectDue_subset (store : List DbPost) (now : Int) :
    ∀ p ∈ selectDue store now, p ∈ store := by
  intro p hp
  have h1 := List.take_subset 10 _ hp
  have h2 := (List.perm_insertionSort schedLE
    (store.filter (fun p => p.status == PostStatus.pending && decide (p.scheduledAt ≤ now)))).subset h1
  exact (List.filter_sublist store).subset h2

/-- Selection preserves id uniqueness. -/
theorem selectDue_nodup (store : List DbPost) (now : Int)
    (hnd : (store.map (fun q => q.id)).Nodup) :
    ((selectDue store now).map (fun q => q.id)).Nodup := by
  have h1 : ((store.filter
      (fun p => p.status == PostStatus.pending && decide (p.scheduledAt ≤ now))).map
        (fun q => q.id)).Nodup :=
    hnd.sublist ((List.filter_sublist store).map (fun q : DbPost => q.id))
  have h2 : ((List.insertionSort schedLE
      (store.filter (fun p => p.status == PostStatus.pending && decide (p.scheduledAt ≤ now)))).map
        (fun q => q.id)).Nodup :=
    (((List.perm_insertionSort schedLE _).map (fun q => q.id)).nodup_iff).mpr h1
  exact h2.sublist ((List.take_sublist 10 _).map (fun q : DbPost => q.id))

/-- Claim C7: one dispatcher invocation selects due PENDING posts in
ascending `scheduledAt` order up to the fixed cap of 10; every
selected post is attempted and its outcome recorded independently
(`results` has one entry per selected post, in order, each a function
of that post's own publish outcome), and — with unique ids — each
selected post's stored record ends as PUBLISHED + threadsId on
success or FAILED + errorLog on failure, regardless of other posts'
failures. -/
theorem cron_dispatch_spec (publish : DbPost → Except String String) (store : List DbPost)
    (now : Int) (hnd : (store.map (fun q => q.id)).Nodup) :
    List.Sorted schedLE (selectDue store now)
    ∧ (selectDue store now).length ≤ 10
    ∧ (cronPublishHandler publish store now).2 =
        (selectDue store now).map (outcomeResult publish)
    ∧ ∀ p ∈ selectDue store now,
        (cronPublishHandler publish store now).1.find? (fun q => q.id == p.id) =
          some (applyOutcome publish p) := by
  refine ⟨?_, ?_, ?_, ?_⟩
  · exact (List.sorted_insertionSort schedLE _).sublist (List.take_sublist 10 _)
  · rw [selectDue]
    rw [List.length_take]
    exact Nat.min_le_left _ _
  · exact processPosts_results publish _ store
  · intro p hp
    exact processPosts_find publish (selectDue store now) store hnd
      (selectDue_nodup store now hnd)
      (fun r hr => find?_eq_self_of_nodup hnd (selectDue_subset store now r hr)) p hp

/-- Witness for C7: three due posts with distinct schedules; the
middle one fails to publish, yet the third is attempted and
published. -/
theorem cron_dispatch_spec_witness :
    List.Sorted schedLE (selectDue
      [{ id := "b", content := "2", imageUrls := [], scheduledAt := 20,
         status := PostStatus.pending, threadsId := none, errorLog := none },
       { id := "a", content := "1", imageUrls := [], scheduledAt := 10,
         status := PostStatus.pending, threadsId := none, errorLog := none },
       { id := "c", content := "3", imageUrls := [], scheduledAt := 30,
         status := PostStatus.pending, threadsId := none, errorLog := none }] 100)
    ∧ (selectDue
        [{ id := "b", content := "2", imageUrls := [], scheduledAt := 20,
           status := PostStatus.pending, threadsId := none, errorLog := none },
         { id := "a", content := "1", imageUrls := [], scheduledAt := 10,
           status := PostStatus.pending, threadsId := none, errorLog := none },
         { id := "c", content := "3", imageUrls := [], scheduledAt := 30,
           status := PostStatus.pending, threadsId := none, errorLog := none }] 100).length ≤ 10
    ∧ (cronPublishHandler
        (fun p => if p.id = "b" then Except.error "boom" else Except.ok ("t" ++ p.id))
        [{ id := "b", content := "2", imageUrls := [], scheduledAt := 20,
           status := PostStatus.pending, threadsId := none, errorLog := none },
         { id := "a", content := "1", imageUrls := [], scheduledAt := 10,
           status := PostStatus.pending, threadsId := none, errorLog := none },
         { id := "c", content := "3", imageUrls := [], scheduledAt := 30,
           status := PostStatus.pending, threadsId := none, errorLog := none }] 100).2 =
        (selectDue
          [{ id := "b", content := "2", imageUrls := [], scheduledAt := 20,
             status := PostStatus.pending, threadsId := none, errorLog := none },
           { id := "a", content := "1", imageUrls := [], scheduledAt := 10,
             status := PostStatus.pending, threadsId := none, errorLog := none },
           { id := "c", content := "3", imageUrls := [], scheduledAt := 30,
             status := PostStatus.pending, threadsId := none, errorLog := none }] 100).map
          (outcomeResult
            (fun p => if p.id = "b" then Except.error "boom" else Except.ok ("t" ++ p.id)))
    ∧ (cronPublishHandler
        (fun p => if p.id = "b" then Except.error "boom" else Except.ok ("t" ++ p.id))
        [{ id := "b", content := "2", imageUrls := [], scheduledAt := 20,
           status := PostStatus.pending, threadsId := none, errorLog := none },
         { id := "a", content := "1", imageUrls := [], scheduledAt := 10,
           status := PostStatus.pending, threadsId := none, errorLog := none },
         { id := "c", content := "3", imageUrls := [], scheduledAt := 30,
           status := PostStatus.pending, threadsId := none, errorLog := none }] 100).1.find?
          (fun q => q.id == "c") =
        some (applyOutcome
          (fun p => if p.id = "b" then Except.error "boom" else Except.ok ("t" ++ p.id))
          { id := "c", content := "3", imageUrls := [], scheduledAt := 30,
            status := PostStatus.pending, threadsId := none, errorLog := none }) := by
  have h := cron_dispatch_spec
    (fun p => if p.id = "b" then Except.error "boom" else Except.ok ("t" ++ p.id))
    [{ id := "b", content := "2", imageUrls := [], scheduledAt := 20,
       status := PostStatus.pending, threadsId := none, errorLog := none },
     { id := "a", content := "1", imageUrls := [], scheduledAt := 10,
       status := PostStatus.pending, threadsId := none, errorLog := none },
     { id := "c", content := "3", imageUrls := [], scheduledAt := 30,
       status := PostStatus.pending, threadsId := none, errorLog := none }] 100 (by decide)
  exact ⟨h.1, h.2.1, h.2.2.1,
    h.2.2.2 { id := "c", content := "3", imageUrls := [], scheduledAt := 30,
              status := PostStatus.pending, threadsId := none, errorLog := none } (by decide)⟩

end ThreadsUploader
